import Mathlib

/-!
# Verification of the CFR benchmarking harness (`cfr_benchmark.py`)

Shallow embedding of the benchmark orchestration engine: the checkpointed
runner (`run_algorithm`), the result store (`self.results`, an
insertion-ordered dict), the comparison orchestrator (`compare_algorithms`),
and the reporting layer (`print_summary`, the data part of
`plot_convergence`).

External solvers are modelled abstractly via the adapter contract: a state
type `S`, a constructor producing the initial state, `run n` advancing the
state by `n` iterations, and `best_response` on the current profile.
Metric values are rationals (the Python floats carry no rounding-relevant
arithmetic in the harness: values are only summed once and stored).

Observable actions of a run (solver construction, `cfr.run`,
`best_response`, recording a checkpoint) are reified as an event trace so
that sequencing claims ("constructed exactly once, before any block") can
be stated.
-/

/-- Modelled from the spec: `profile.best_response()` from `pokerstrategy.py`,
which is not under `src/`. Per the adapter contract (spec section 4.1/6) and the
repository's own test `test_rscfr.py` (`result = cfr.profile.best_response()`;
`sum(result[1])`), it returns a pair whose component at index 1 is the
per-player sequence of best-response expected values. The component at
index 0 (the best-response strategies) is opaque: the harness never reads it. -/
structure BestResponseResult where
  strategies : Unit
  evs : List ℚ
deriving DecidableEq

/-- The algorithm adapter: the capability surface the harness uses from a
solver instance `cfr`. `init` is the state right after construction
(`algorithm_class(game_rules, **kwargs)`), `run n` is `cfr.run(n)` (state
mutation, modelled as state passing), and `best_response` is
`cfr.profile.best_response()` on the current state. -/
structure Solver (S : Type) where
  init : S
  run : Nat → S → S
  best_response : S → BestResponseResult

/-- Observable actions performed by `run_algorithm`, in program order. -/
inductive Event where
  | construct : Event
  | advance : Nat → Event
  | bestResponse : Event
  | record : Nat → ℚ → Event
deriving DecidableEq

/-- State of the checkpoint loop in `run_algorithm`: the two accumulator
lists, the solver state, and the trace of observable actions. -/
structure LoopOut (S : Type) where
  iterations_list : List Nat
  exploitability_list : List ℚ
  cfr_state : S
  events : List Event

/-- The loop body of `run_algorithm`
(`for checkpoint in range(num_checkpoints): ...`), by recursion on the
number of remaining checkpoints, carrying the 0-based index of the next
checkpoint. Each pass computes `current_iter = (checkpoint + 1) *
checkpoint_interval`, runs `cfr.run(checkpoint_interval)`, computes
`exploitability = sum(result[1])` from `cfr.profile.best_response()`, and
appends to both lists. -/
def checkpoint_loop {S : Type} (cfr : Solver S) (checkpoint_interval : Nat) :
    Nat → Nat → S → LoopOut S
  | 0, _, s => ⟨[], [], s, []⟩
  | k + 1, checkpoint, s =>
      let current_iter := (checkpoint + 1) * checkpoint_interval
      let s1 := cfr.run checkpoint_interval s
      let result := cfr.best_response s1
      let exploitability := result.evs.sum
      let rest := checkpoint_loop cfr checkpoint_interval k (checkpoint + 1) s1
      ⟨current_iter :: rest.iterations_list,
       exploitability :: rest.exploitability_list,
       rest.cfr_state,
       Event.advance checkpoint_interval :: Event.bestResponse ::
         Event.record current_iter exploitability :: rest.events⟩

/-- The body of `run_algorithm` after solver construction:
`num_checkpoints = total_iterations // checkpoint_interval`, then the
checkpoint loop starting from index 0 on the freshly constructed state. -/
def run_algorithm_core {S : Type} (cfr : Solver S)
    (total_iterations checkpoint_interval : Nat) : LoopOut S :=
  checkpoint_loop cfr checkpoint_interval
    (total_iterations / checkpoint_interval) 0 cfr.init

/-- One recorded run, as stored in `self.results[algorithm_name]`:
the dict with keys `iterations`, `exploitability`, `final_strategy`. -/
structure AlgorithmRun (S : Type) where
  iterations : List Nat
  exploitability : List ℚ
  final_strategy : S
deriving DecidableEq

/-- Python dict assignment `d[k] = v` on an insertion-ordered association
list: an existing key keeps its original position and gets the new value; a
new key is appended at the end. -/
def dictInsert {α : Type} (k : String) (v : α) :
    List (String × α) → List (String × α)
  | [] => [(k, v)]
  | (k1, v1) :: rest =>
      if k1 = k then (k, v) :: rest else (k1, v1) :: dictInsert k v rest

/-- Python dict read `d[k]` (as an `Option`). -/
def dictLookup {α : Type} (k : String) : List (String × α) → Option α
  | [] => none
  | (k1, v1) :: rest => if k1 = k then some v1 else dictLookup k rest

/-- The benchmark session object: `self.results` is an insertion-ordered
mapping from algorithm name to its recorded run. (`game_rules` and
`game_name` are cosmetic for the claims and folded into the abstract
solver constructors.) -/
structure CFRBenchmark (S : Type) where
  results : List (String × AlgorithmRun S)
deriving DecidableEq

/-- The run record built from the loop output: the dict
`{'iterations': ..., 'exploitability': ..., 'final_strategy': cfr.profile}`. -/
def run_algorithm_data {S : Type} (cfr : Solver S)
    (total_iterations checkpoint_interval : Nat) : AlgorithmRun S :=
  let out := run_algorithm_core cfr total_iterations checkpoint_interval
  ⟨out.iterations_list, out.exploitability_list, out.cfr_state⟩

/-- `CFRBenchmark.run_algorithm`: construct the solver once
(`cfr = algorithm_class(self.game_rules, **algorithm_kwargs)`), run the
checkpoint loop, store the run under `algorithm_name` (overwriting any
prior entry of that name), and return it. Also returns the event trace of
the call, with the construction event first. `K` is the type of
constructor keyword-argument sets. -/
def CFRBenchmark.run_algorithm {S K : Type} (b : CFRBenchmark S)
    (algorithm_class : K → Solver S) (algorithm_name : String)
    (total_iterations checkpoint_interval : Nat) (algorithm_kwargs : K) :
    CFRBenchmark S × AlgorithmRun S × List Event :=
  let cfr := algorithm_class algorithm_kwargs
  let data := run_algorithm_data cfr total_iterations checkpoint_interval
  (⟨dictInsert algorithm_name data b.results⟩, data,
    Event.construct ::
      (run_algorithm_core cfr total_iterations checkpoint_interval).events)

/-- An entry of the `algorithm_configs` list passed to
`compare_algorithms`: a tuple of length 2 (`(class, name)`), of length 3
(`(class, name, kwargs)`), or of any other arity (malformed). -/
inductive AlgorithmConfig (S K : Type) where
  | pair (algorithm_class : K → Solver S) (algorithm_name : String)
  | triple (algorithm_class : K → Solver S) (algorithm_name : String)
      (algorithm_kwargs : K)
  | other (arity : Nat)

/-- A config tuple of supported arity (2 or 3). -/
def AlgorithmConfig.wellFormed {S K : Type} : AlgorithmConfig S K → Prop
  | .pair _ _ => True
  | .triple _ _ _ => True
  | .other _ => False

/-- The display name of a well-formed config. -/
def AlgorithmConfig.nameOf {S K : Type} : AlgorithmConfig S K → Option String
  | .pair _ n => some n
  | .triple _ n _ => some n
  | .other _ => none

/-- The display names of a config list, in input order. -/
def configNames {S K : Type} (cs : List (AlgorithmConfig S K)) : List String :=
  cs.filterMap AlgorithmConfig.nameOf

/-- `CFRBenchmark.compare_algorithms`: process configs strictly in input
order; a 2-tuple gets empty kwargs (`emptyKwargs`), a 3-tuple its own
kwargs, any other arity raises `ValueError` (modelled as the error
component) leaving the session as accumulated so far and performing no
further action. Returns the final session, the concatenated event trace,
and the error, if any. -/
def compare_algorithms {S K : Type} (emptyKwargs : K)
    (total_iterations checkpoint_interval : Nat) :
    CFRBenchmark S → List (AlgorithmConfig S K) →
    CFRBenchmark S × List Event × Option String
  | b, [] => (b, [], none)
  | b, AlgorithmConfig.pair cls name :: rest =>
      let step := b.run_algorithm cls name total_iterations
        checkpoint_interval emptyKwargs
      let cont := compare_algorithms emptyKwargs total_iterations
        checkpoint_interval step.1 rest
      (cont.1, step.2.2 ++ cont.2.1, cont.2.2)
  | b, AlgorithmConfig.triple cls name kwargs :: rest =>
      let step := b.run_algorithm cls name total_iterations
        checkpoint_interval kwargs
      let cont := compare_algorithms emptyKwargs total_iterations
        checkpoint_interval step.1 rest
      (cont.1, step.2.2 ++ cont.2.1, cont.2.2)
  | b, AlgorithmConfig.other _ :: _ =>
      (b, [], some "Invalid config format")

/-- The loop of `print_summary`: for each stored run in insertion order
read `data['iterations'][-1]` and `data['exploitability'][-1]` and emit the
row. An index into an empty list raises `IndexError` (modelled as the error
component): the rows emitted before the failing run are kept, nothing after
it is processed. -/
def summary_loop {S : Type} :
    List (String × AlgorithmRun S) → List (String × Nat × ℚ) × Option String
  | [] => ([], none)
  | (algorithm_name, data) :: rest =>
      match data.iterations.getLast?, data.exploitability.getLast? with
      | some final_iter, some final_exploit =>
          let cont := summary_loop rest
          ((algorithm_name, final_iter, final_exploit) :: cont.1, cont.2)
      | _, _ => ([], some "IndexError: list index out of range")

/-- `CFRBenchmark.print_summary`: a pure read of the result store (the
embedding returns the emitted rows and the error, if any, and no new
store: the method never mutates `self.results`). -/
def CFRBenchmark.print_summary {S : Type} (b : CFRBenchmark S) :
    List (String × Nat × ℚ) × Option String :=
  summary_loop b.results

/-- The data content of `plot_convergence`: one plot call per stored run,
in insertion order, carrying the curve data and the legend label
(`plt.plot(data['iterations'], data['exploitability'],
label=algorithm_name, ...)`). Styling and axis scaling are rendering glue. -/
def CFRBenchmark.plot_convergence {S : Type} (b : CFRBenchmark S) :
    List (String × List Nat × List ℚ) :=
  b.results.map (fun p => (p.1, p.2.iterations, p.2.exploitability))

/-- Total number of solver iterations executed in a trace: the sum of the
arguments of all `advance` events. -/
def advanceTotal : List Event → Nat
  | [] => 0
  | Event.advance n :: rest => n + advanceTotal rest
  | _ :: rest => advanceTotal rest

/-- A concrete adapter instance for evaluating the harness on closed
inputs: the state counts iterations run so far, and `best_response`
returns per-player values `[state, 1]` so the metric varies across
checkpoints. -/
def demoSolver : Solver Nat :=
  ⟨0, fun n s => s + n, fun s => ⟨(), [(s : ℚ), 1]⟩⟩

/-- A concrete `algorithm_class`: kwargs (a bare `Nat`) are ignored. -/
def demoClass : Nat → Solver Nat := fun _ => demoSolver

/-- A second concrete adapter, distinguishable from `demoSolver`. -/
def demoSolver2 : Solver Nat :=
  ⟨100, fun n s => s + 2 * n, fun s => ⟨(), [(s : ℚ)]⟩⟩

/-- A concrete `algorithm_class` for `demoSolver2`. -/
def demoClass2 : Nat → Solver Nat := fun _ => demoSolver2

/-- A fresh benchmark session. -/
def demoBench : CFRBenchmark Nat := ⟨[]⟩

/-! ## Closed forms for the checkpoint loop -/

/-- The iteration counts recorded by the loop: `(index + 1) * interval` for
each 0-based block index. -/
lemma checkpoint_loop_iterations {S : Type} (cfr : Solver S) (ci k : Nat) :
    ∀ (i : Nat) (s : S),
      (checkpoint_loop cfr ci k i s).iterations_list
        = (List.range k).map (fun j => (i + 1 + j) * ci) := by
  induction k with
  | zero => intro i s; simp [checkpoint_loop]
  | succ k ih =>
      intro i s
      rw [List.range_succ_eq_map]
      simp only [checkpoint_loop, List.map_cons, List.map_map, List.cons.injEq]
      refine ⟨by simp, ?_⟩
      rw [ih (i + 1) (cfr.run ci s)]
      exact List.map_congr_left
        (fun a _ => by simp only [Function.comp_apply, Nat.succ_eq_add_one]; ring)

/-- The metric values recorded by the loop: block `j` records the sum of
the best-response values at the state reached after `j + 1` blocks. -/
lemma checkpoint_loop_exploitability {S : Type} (cfr : Solver S) (ci k : Nat) :
    ∀ (i : Nat) (s : S),
      (checkpoint_loop cfr ci k i s).exploitability_list
        = (List.range k).map
            (fun j => (cfr.best_response ((cfr.run ci)^[j + 1] s)).evs.sum) := by
  induction k with
  | zero => intro i s; simp [checkpoint_loop]
  | succ k ih =>
      intro i s
      rw [List.range_succ_eq_map]
      simp only [checkpoint_loop, List.map_cons, List.map_map, List.cons.injEq]
      constructor
      · simp
      · rw [ih (i + 1) (cfr.run ci s)]
        refine List.map_congr_left (fun a _ => ?_)
        simp only [Function.comp_apply, Nat.succ_eq_add_one,
          Function.iterate_succ_apply]

/-- The final solver state of the loop: `k` applications of a
`checkpoint_interval`-sized advance. -/
lemma checkpoint_loop_state {S : Type} (cfr : Solver S) (ci k : Nat) :
    ∀ (i : Nat) (s : S),
      (checkpoint_loop cfr ci k i s).cfr_state = (cfr.run ci)^[k] s := by
  induction k with
  | zero => intro i s; simp [checkpoint_loop]
  | succ k ih =>
      intro i s
      simp only [checkpoint_loop]
      rw [ih (i + 1) (cfr.run ci s), Function.iterate_succ_apply]

/-- The event trace of the loop: one `[advance, bestResponse, record]`
block per checkpoint, in order. -/
lemma checkpoint_loop_events {S : Type} (cfr : Solver S) (ci k : Nat) :
    ∀ (i : Nat) (s : S),
      (checkpoint_loop cfr ci k i s).events
        = ((List.range k).map (fun j =>
            [Event.advance ci, Event.bestResponse,
             Event.record ((i + 1 + j) * ci)
               ((cfr.best_response ((cfr.run ci)^[j + 1] s)).evs.sum)])).flatten := by
  induction k with
  | zero => intro i s; simp [checkpoint_loop]
  | succ k ih =>
      intro i s
      rw [List.range_succ_eq_map]
      simp only [checkpoint_loop, List.map_cons, List.map_map, List.flatten_cons]
      rw [ih (i + 1) (cfr.run ci s)]
      simp only [List.cons_append, List.nil_append, List.cons.injEq]
      refine ⟨trivial, trivial, by simp, ?_⟩
      congr 1
      refine List.map_congr_left (fun a _ => ?_)
      simp only [Function.comp_apply, Nat.succ_eq_add_one,
        Function.iterate_succ_apply]
      ring_nf

/-- Total iterations executed by the loop: exactly `k * interval`. -/
lemma advanceTotal_checkpoint_loop {S : Type} (cfr : Solver S) (ci k : Nat) :
    ∀ (i : Nat) (s : S),
      advanceTotal (checkpoint_loop cfr ci k i s).events = k * ci := by
  induction k with
  | zero => intro i s; simp [checkpoint_loop, advanceTotal]
  | succ k ih =>
      intro i s
      simp only [checkpoint_loop, advanceTotal]
      rw [ih (i + 1) (cfr.run ci s)]
      ring

/-- Every `advance` event of the loop advances by exactly the interval:
no partial block is ever run. -/
lemma checkpoint_loop_advance_amount {S : Type} (cfr : Solver S) (ci k : Nat) :
    ∀ (i : Nat) (s : S) (n : Nat),
      Event.advance n ∈ (checkpoint_loop cfr ci k i s).events → n = ci := by
  induction k with
  | zero => intro i s n h; simp [checkpoint_loop] at h
  | succ k ih =>
      intro i s n h
      simp only [checkpoint_loop, List.mem_cons] at h
      rcases h with h | h | h | h
      · injection h
      · exact absurd h (by simp)
      · exact absurd h (by simp)
      · exact ih (i + 1) (cfr.run ci s) n h

/-! ## Lemmas on the insertion-ordered mapping -/

/-- Reading back the key just written yields the new value. -/
lemma dictLookup_dictInsert_self {α : Type} (k : String) (v : α)
    (l : List (String × α)) : dictLookup k (dictInsert k v l) = some v := by
  induction l with
  | nil => simp [dictInsert, dictLookup]
  | cons p rest ih =>
      obtain ⟨k1, v1⟩ := p
      by_cases h : k1 = k
      · simp [dictInsert, dictLookup, h]
      · simp [dictInsert, dictLookup, h, ih]

/-- Writing an absent key appends it at the end of the iteration order. -/
lemma dictInsert_keys_of_not_mem {α : Type} {k : String} (v : α)
    {l : List (String × α)} (h : k ∉ l.map Prod.fst) :
    (dictInsert k v l).map Prod.fst = l.map Prod.fst ++ [k] := by
  induction l with
  | nil => simp [dictInsert]
  | cons p rest ih =>
      obtain ⟨k1, v1⟩ := p
      simp only [List.map_cons, List.mem_cons] at h
      push_neg at h
      simp [dictInsert, Ne.symm h.1, ih h.2]

/-- Writing a present key keeps the iteration order of keys unchanged. -/
lemma dictInsert_keys_of_mem {α : Type} {k : String} (v : α)
    {l : List (String × α)} (h : k ∈ l.map Prod.fst) :
    (dictInsert k v l).map Prod.fst = l.map Prod.fst := by
  induction l with
  | nil => simp at h
  | cons p rest ih =>
      obtain ⟨k1, v1⟩ := p
      by_cases hk : k1 = k
      · simp [dictInsert, hk]
      · simp only [List.map_cons, List.mem_cons] at h
        rcases h with h | h
        · exact absurd h.symm hk
        · simp [dictInsert, hk, ih h]

/-- Dict writes keep the keys without duplicates. -/
lemma dictInsert_keys_nodup {α : Type} {k : String} (v : α)
    {l : List (String × α)} (h : (l.map Prod.fst).Nodup) :
    ((dictInsert k v l).map Prod.fst).Nodup := by
  by_cases hm : k ∈ l.map Prod.fst
  · rwa [dictInsert_keys_of_mem v hm]
  · rw [dictInsert_keys_of_not_mem v hm]
    exact List.Nodup.append h (List.nodup_singleton k) (by simpa using hm)

/-- In a duplicate-free dict, the only entry under the written key holds
the written value. -/
lemma eq_of_mem_dictInsert_self {α : Type} {k : String} {v d : α}
    {l : List (String × α)} (hnd : (l.map Prod.fst).Nodup)
    (h : (k, d) ∈ dictInsert k v l) : d = v := by
  induction l with
  | nil => simpa [dictInsert] using h
  | cons p rest ih =>
      obtain ⟨k1, v1⟩ := p
      simp only [List.map_cons, List.nodup_cons] at hnd
      by_cases hk : k1 = k
      · subst hk
        simp only [dictInsert, if_true, List.mem_cons] at h
        rcases h with h1 | h1
        · exact (Prod.ext_iff.mp h1).2
        · exact absurd (List.mem_map_of_mem Prod.fst h1) hnd.1
      · simp only [dictInsert, if_neg hk, List.mem_cons] at h
        rcases h with h1 | h1
        · exact absurd (congrArg Prod.fst h1).symm hk
        · exact ih hnd.2 h1

/-- The written pair is among the entries after a dict write. -/
lemma mem_dictInsert_self {α : Type} (k : String) (v : α)
    (l : List (String × α)) : (k, v) ∈ dictInsert k v l := by
  induction l with
  | nil => simp [dictInsert]
  | cons p rest ih =>
      obtain ⟨k1, v1⟩ := p
      by_cases hk : k1 = k
      · simp [dictInsert, hk]
      · simp only [dictInsert, if_neg hk]
        exact List.mem_cons_of_mem _ ih

/-- A per-run property holding of every stored run and of the newly
written run holds of every run after the write. -/
lemma forall_mem_dictInsert {α : Type} {P : α → Prop} {k : String} {v : α}
    {l : List (String × α)} (hl : ∀ p ∈ l, P p.2) (hv : P v) :
    ∀ p ∈ dictInsert k v l, P p.2 := by
  induction l with
  | nil => simpa [dictInsert] using hv
  | cons q rest ih =>
      obtain ⟨k1, v1⟩ := q
      intro p hp
      by_cases hk : k1 = k
      · simp only [dictInsert, if_pos hk, List.mem_cons] at hp
        rcases hp with rfl | hp
        · exact hv
        · exact hl p (List.mem_cons_of_mem _ hp)
      · simp only [dictInsert, if_neg hk, List.mem_cons] at hp
        rcases hp with rfl | hp
        · exact hl _ (List.mem_cons_self _ _)
        · exact ih (fun q hq => hl q (List.mem_cons_of_mem _ hq)) p hp

/-! ## Lemmas on the summary loop -/

/-- When every stored run has at least one checkpoint, the summary emits
one row per run, in insertion order, with the last recorded iteration
count and metric value, and no error. -/
lemma summary_loop_of_forall_ne_nil {S : Type}
    (l : List (String × AlgorithmRun S))
    (h : ∀ p ∈ l, p.2.iterations ≠ [] ∧ p.2.exploitability ≠ []) :
    summary_loop l
      = (l.map (fun p =>
          (p.1, p.2.iterations.getLastD 0, p.2.exploitability.getLastD 0)),
         none) := by
  induction l with
  | nil => simp [summary_loop]
  | cons p rest ih =>
      obtain ⟨name, data⟩ := p
      obtain ⟨h1, h2⟩ := h _ (List.mem_cons_self _ _)
      obtain ⟨x, hx⟩ := Option.isSome_iff_exists.mp (List.getLast?_isSome.mpr h1)
      obtain ⟨y, hy⟩ := Option.isSome_iff_exists.mp (List.getLast?_isSome.mpr h2)
      simp only [summary_loop, hx, hy]
      rw [ih (fun q hq => h q (List.mem_cons_of_mem _ hq))]
      simp [List.getLastD_eq_getLast?, hx, hy]

/-- If some stored run has an empty iteration list, the summary loop ends
in the `IndexError`. -/
lemma summary_loop_err_of_empty {S : Type}
    (l : List (String × AlgorithmRun S))
    (h : ∃ p ∈ l, p.2.iterations = []) :
    (summary_loop l).2 = some "IndexError: list index out of range" := by
  induction l with
  | nil => simp at h
  | cons p rest ih =>
      obtain ⟨name, data⟩ := p
      rcases h with ⟨q, hq, hqe⟩
      rcases List.mem_cons.mp hq with rfl | hq2
      · simp only at hqe
        simp [summary_loop, hqe]
      · cases hx : data.iterations.getLast? with
        | none => simp [summary_loop, hx]
        | some x =>
            cases hy : data.exploitability.getLast? with
            | none => simp [summary_loop, hx, hy]
            | some y =>
                simp only [summary_loop, hx, hy]
                exact ih ⟨q, hq2, hqe⟩

/-- Every name among the emitted summary rows belongs to a stored run with
a non-empty iteration list: a zero-checkpoint run never yields a row. -/
lemma summary_loop_names_sub {S : Type}
    (l : List (String × AlgorithmRun S)) (n : String)
    (h : n ∈ (summary_loop l).1.map Prod.fst) :
    ∃ d, (n, d) ∈ l ∧ d.iterations ≠ [] := by
  induction l with
  | nil => simp [summary_loop] at h
  | cons p rest ih =>
      obtain ⟨name, data⟩ := p
      cases hx : data.iterations.getLast? with
      | none => simp [summary_loop, hx] at h
      | some x =>
          cases hy : data.exploitability.getLast? with
          | none => simp [summary_loop, hx, hy] at h
          | some y =>
              simp only [summary_loop, hx, hy, List.map_cons,
                List.mem_cons] at h
              rcases h with rfl | h2
              · refine ⟨data, List.mem_cons_self _ _, ?_⟩
                intro hcon
                rw [hcon] at hx
                simp at hx
              · obtain ⟨d, hd, hne⟩ := ih h2
                exact ⟨d, List.mem_cons_of_mem _ hd, hne⟩

/-! ## Lemmas on `run_algorithm` and `compare_algorithms` -/

/-- The store after `run_algorithm` is a single dict write. -/
lemma run_algorithm_results {S K : Type} (b : CFRBenchmark S)
    (cls : K → Solver S) (name : String) (t ci : Nat) (kw : K) :
    (b.run_algorithm cls name t ci kw).1.results
      = dictInsert name (run_algorithm_data (cls kw) t ci) b.results := rfl

/-- The run returned by `run_algorithm` is the loop output. -/
lemma run_algorithm_run {S K : Type} (b : CFRBenchmark S)
    (cls : K → Solver S) (name : String) (t ci : Nat) (kw : K) :
    (b.run_algorithm cls name t ci kw).2.1
      = run_algorithm_data (cls kw) t ci := rfl

/-- The trace of `run_algorithm`: construction first, then the loop. -/
lemma run_algorithm_events {S K : Type} (b : CFRBenchmark S)
    (cls : K → Solver S) (name : String) (t ci : Nat) (kw : K) :
    (b.run_algorithm cls name t ci kw).2.2
      = Event.construct :: (run_algorithm_core (cls kw) t ci).events := rfl

/-- Closed form of the recorded iteration counts of one run. -/
lemma run_algorithm_data_iterations {S : Type} (cfr : Solver S)
    (t ci : Nat) :
    (run_algorithm_data cfr t ci).iterations
      = (List.range (t / ci)).map (fun j => (j + 1) * ci) := by
  show (run_algorithm_core cfr t ci).iterations_list = _
  rw [run_algorithm_core, checkpoint_loop_iterations]
  exact List.map_congr_left (fun a _ => by ring)

/-- Closed form of the recorded metric values of one run. -/
lemma run_algorithm_data_exploitability {S : Type} (cfr : Solver S)
    (t ci : Nat) :
    (run_algorithm_data cfr t ci).exploitability
      = (List.range (t / ci)).map
          (fun j => (cfr.best_response ((cfr.run ci)^[j + 1] cfr.init)).evs.sum) := by
  show (run_algorithm_core cfr t ci).exploitability_list = _
  rw [run_algorithm_core, checkpoint_loop_exploitability]

/-- `compare_algorithms` over well-formed configs with fresh distinct
names: keys are appended in input order and no error is raised. -/
lemma compare_algorithms_keys {S K : Type} (eK : K) (t ci : Nat) :
    ∀ (cs : List (AlgorithmConfig S K)) (b : CFRBenchmark S),
      (∀ c ∈ cs, c.wellFormed) → (configNames cs).Nodup →
      (∀ n ∈ configNames cs, n ∉ b.results.map Prod.fst) →
      (compare_algorithms eK t ci b cs).1.results.map Prod.fst
          = b.results.map Prod.fst ++ configNames cs
        ∧ (compare_algorithms eK t ci b cs).2.2 = none := by
  intro cs
  induction cs with
  | nil => intro b _ _ _; simp [compare_algorithms, configNames]
  | cons c rest ih =>
      intro b hwf hnd hdis
      cases c with
      | other a => exact (hwf _ (List.mem_cons_self _ _)).elim
      | pair cls name =>
          have hname : configNames (AlgorithmConfig.pair cls name :: rest)
              = name :: configNames rest := by
            simp [configNames, AlgorithmConfig.nameOf]
          rw [hname] at hnd hdis ⊢
          obtain ⟨hnm, hnd2⟩ := List.nodup_cons.mp hnd
          have hnotmem : name ∉ b.results.map Prod.fst :=
            hdis name (List.mem_cons_self _ _)
          have hkeys1 : (b.run_algorithm cls name t ci eK).1.results.map Prod.fst
              = b.results.map Prod.fst ++ [name] := by
            rw [run_algorithm_results]
            exact dictInsert_keys_of_not_mem _ hnotmem
          have hdis2 : ∀ n ∈ configNames rest,
              n ∉ (b.run_algorithm cls name t ci eK).1.results.map Prod.fst := by
            intro n hn
            rw [hkeys1]
            simp only [List.mem_append, List.mem_singleton]
            push_neg
            refine ⟨hdis n (List.mem_cons_of_mem _ hn), fun hcon => ?_⟩
            exact hnm (hcon ▸ hn)
          have hres := ih (b.run_algorithm cls name t ci eK).1
            (fun c hc => hwf c (List.mem_cons_of_mem _ hc)) hnd2 hdis2
          refine ⟨?_, ?_⟩
          · simp only [compare_algorithms]
            rw [hres.1, hkeys1, List.append_assoc, List.singleton_append]
          · simp only [compare_algorithms]
            exact hres.2
      | triple cls name kw =>
          have hname : configNames (AlgorithmConfig.triple cls name kw :: rest)
              = name :: configNames rest := by
            simp [configNames, AlgorithmConfig.nameOf]
          rw [hname] at hnd hdis ⊢
          obtain ⟨hnm, hnd2⟩ := List.nodup_cons.mp hnd
          have hnotmem : name ∉ b.results.map Prod.fst :=
            hdis name (List.mem_cons_self _ _)
          have hkeys1 : (b.run_algorithm cls name t ci kw).1.results.map Prod.fst
              = b.results.map Prod.fst ++ [name] := by
            rw [run_algorithm_results]
            exact dictInsert_keys_of_not_mem _ hnotmem
          have hdis2 : ∀ n ∈ configNames rest,
              n ∉ (b.run_algorithm cls name t ci kw).1.results.map Prod.fst := by
            intro n hn
            rw [hkeys1]
            simp only [List.mem_append, List.mem_singleton]
            push_neg
            refine ⟨hdis n (List.mem_cons_of_mem _ hn), fun hcon => ?_⟩
            exact hnm (hcon ▸ hn)
          have hres := ih (b.run_algorithm cls name t ci kw).1
            (fun c hc => hwf c (List.mem_cons_of_mem _ hc)) hnd2 hdis2
          refine ⟨?_, ?_⟩
          · simp only [compare_algorithms]
            rw [hres.1, hkeys1, List.append_assoc, List.singleton_append]
          · simp only [compare_algorithms]
            exact hres.2

/-- A per-run property satisfied by every run the runner can produce, and
by the initial store, holds of every stored run after a batch. -/
lemma compare_algorithms_preserves {S K : Type} (P : AlgorithmRun S → Prop)
    (eK : K) (t ci : Nat)
    (hall : ∀ cfr : Solver S, P (run_algorithm_data cfr t ci)) :
    ∀ (cs : List (AlgorithmConfig S K)) (b : CFRBenchmark S),
      (∀ p ∈ b.results, P p.2) →
      ∀ p ∈ (compare_algorithms eK t ci b cs).1.results, P p.2 := by
  intro cs
  induction cs with
  | nil => intro b hb; simpa [compare_algorithms] using hb
  | cons c rest ih =>
      intro b hb
      cases c with
      | other a => simpa [compare_algorithms] using hb
      | pair cls name =>
          simp only [compare_algorithms]
          refine ih _ ?_
          rw [run_algorithm_results]
          exact forall_mem_dictInsert hb (hall _)
      | triple cls name kw =>
          simp only [compare_algorithms]
          refine ih _ ?_
          rw [run_algorithm_results]
          exact forall_mem_dictInsert hb (hall _)

/-- Hitting a malformed config aborts the batch with `ValueError`: the
store and the event trace are exactly those of the prefix of well-formed
configs preceding it (no construction or iteration for the malformed
entry or anything after it). -/
lemma compare_algorithms_stops {S K : Type} (eK : K) (t ci : Nat) :
    ∀ (cs1 : List (AlgorithmConfig S K)) (b : CFRBenchmark S) (a : Nat)
      (cs2 : List (AlgorithmConfig S K)),
      (∀ c ∈ cs1, c.wellFormed) →
      compare_algorithms eK t ci b (cs1 ++ AlgorithmConfig.other a :: cs2)
        = ((compare_algorithms eK t ci b cs1).1,
           (compare_algorithms eK t ci b cs1).2.1,
           some "Invalid config format") := by
  intro cs1
  induction cs1 with
  | nil => intro b a cs2 _; simp [compare_algorithms]
  | cons c rest ih =>
      intro b a cs2 hwf
      cases c with
      | other x => exact (hwf _ (List.mem_cons_self _ _)).elim
      | pair cls name =>
          simp only [List.cons_append, compare_algorithms, List.append_eq]
          rw [ih _ a cs2 (fun c hc => hwf c (List.mem_cons_of_mem _ hc))]
      | triple cls name kw =>
          simp only [List.cons_append, compare_algorithms, List.append_eq]
          rw [ih _ a cs2 (fun c hc => hwf c (List.mem_cons_of_mem _ hc))]

/-! ## Claims -/

/-- C1: for every `run_algorithm` call with
`0 < checkpoint_interval ≤ total_iterations`, the number of checkpoints
recorded equals `total_iterations / checkpoint_interval`, the checkpoint at
0-based position `i` has iteration count `(i + 1) * checkpoint_interval`
(1-based position times the interval), the counts are strictly increasing,
the last equals the quotient times the interval, the solver is advanced by
exactly that product (never beyond it), and every advance is a full
interval (the remainder is dropped, never run as a partial block). -/
theorem C1_checkpoint_schedule {S K : Type} (b : CFRBenchmark S)
    (cls : K → Solver S) (name : String) (t ci : Nat) (kw : K)
    (hpos : 0 < ci) (hle : ci ≤ t) :
    (b.run_algorithm cls name t ci kw).2.1.iterations.length = t / ci
    ∧ (∀ i, i < t / ci →
        ((b.run_algorithm cls name t ci kw).2.1.iterations)[i]?
          = some ((i + 1) * ci))
    ∧ List.Sorted (· < ·) (b.run_algorithm cls name t ci kw).2.1.iterations
    ∧ (b.run_algorithm cls name t ci kw).2.1.iterations.getLast?
        = some ((t / ci) * ci)
    ∧ advanceTotal (b.run_algorithm cls name t ci kw).2.2 = (t / ci) * ci
    ∧ (t / ci) * ci ≤ t
    ∧ (∀ n, Event.advance n ∈ (b.run_algorithm cls name t ci kw).2.2 →
        n = ci) := by
  have hL : (b.run_algorithm cls name t ci kw).2.1.iterations
      = (List.range (t / ci)).map (fun j => (j + 1) * ci) := by
    rw [run_algorithm_run, run_algorithm_data_iterations]
  refine ⟨?_, ?_, ?_, ?_, ?_, Nat.div_mul_le_self t ci, ?_⟩
  · rw [hL]; simp
  · intro i hi
    rw [hL]
    simp [List.getElem?_map, List.getElem?_range hi]
  · rw [hL]
    exact (List.pairwise_lt_range _).map _
      (fun a b hab => mul_lt_mul_of_pos_right (by omega) hpos)
  · have hdiv : 0 < t / ci := Nat.div_pos hle hpos
    have hm : t / ci = t / ci - 1 + 1 := by omega
    rw [hL, hm, List.range_succ, List.map_append]
    simp [List.getLast?_concat]
  · rw [run_algorithm_events]
    show advanceTotal (run_algorithm_core (cls kw) t ci).events = t / ci * ci
    rw [run_algorithm_core, advanceTotal_checkpoint_loop]
  · intro n hn
    rw [run_algorithm_events] at hn
    rcases List.mem_cons.mp hn with h1 | h1
    · exact absurd h1 (by simp)
    · rw [run_algorithm_core] at h1
      exact checkpoint_loop_advance_amount _ _ _ _ _ _ h1

/-- C1 witness: the schedule theorem applied at a concrete run:
`total_iterations = 7`, `checkpoint_interval = 2`, giving checkpoints at
`2, 4, 6`. -/
theorem C1_checkpoint_schedule_witness :
    (demoBench.run_algorithm demoClass "A" 7 2 0).2.1.iterations.length = 7 / 2
    ∧ (∀ i, i < 7 / 2 →
        ((demoBench.run_algorithm demoClass "A" 7 2 0).2.1.iterations)[i]?
          = some ((i + 1) * 2))
    ∧ List.Sorted (· < ·)
        (demoBench.run_algorithm demoClass "A" 7 2 0).2.1.iterations
    ∧ (demoBench.run_algorithm demoClass "A" 7 2 0).2.1.iterations.getLast?
        = some (7 / 2 * 2)
    ∧ advanceTotal (demoBench.run_algorithm demoClass "A" 7 2 0).2.2 = 7 / 2 * 2
    ∧ 7 / 2 * 2 ≤ 7
    ∧ (∀ n,
        Event.advance n ∈ (demoBench.run_algorithm demoClass "A" 7 2 0).2.2 →
        n = 2) :=
  C1_checkpoint_schedule demoBench demoClass "A" 7 2 0 (by decide) (by decide)

/-- C3: every checkpoint's stored metric value is the sum of the per-player
best-response values computed on the solver's profile at that checkpoint
(the state reached after `j + 1` blocks of `checkpoint_interval`
iterations). -/
theorem C3_metric_is_sum {S K : Type} (b : CFRBenchmark S)
    (cls : K → Solver S) (name : String) (t ci : Nat) (kw : K)
    (hpos : 0 < ci) (j : Nat)
    (hj : j < (b.run_algorithm cls name t ci kw).2.1.exploitability.length) :
    ((b.run_algorithm cls name t ci kw).2.1.exploitability)[j]?
      = some (((cls kw).best_response
          (((cls kw).run ci)^[j + 1] (cls kw).init)).evs.sum) := by
  have hE : (b.run_algorithm cls name t ci kw).2.1.exploitability
      = (List.range (t / ci)).map
          (fun j => (((cls kw).best_response
            (((cls kw).run ci)^[j + 1] (cls kw).init)).evs.sum)) := by
    rw [run_algorithm_run, run_algorithm_data_exploitability]
  rw [hE] at hj ⊢
  simp only [List.length_map, List.length_range] at hj
  simp [List.getElem?_map, List.getElem?_range hj]

/-- C3 witness: the metric theorem applied at the first checkpoint of a
concrete run. -/
theorem C3_metric_is_sum_witness :
    ((demoBench.run_algorithm demoClass "A" 4 2 0).2.1.exploitability)[0]?
      = some ((demoSolver.best_response
          ((demoSolver.run 2)^[0 + 1] demoSolver.init)).evs.sum) :=
  C3_metric_is_sum demoBench demoClass "A" 4 2 0 (by decide) 0 (by decide)

/-- C4: the trace of a `run_algorithm` call is: one construction event,
then `total_iterations / checkpoint_interval` blocks, each consisting of
an advance by exactly `checkpoint_interval`, a best-response computation,
and the recording of `(block_index * checkpoint_interval, metric)`, in
that order; in particular the solver is constructed exactly once, before
any block. -/
theorem C4_construct_once_then_blocks {S K : Type} (b : CFRBenchmark S)
    (cls : K → Solver S) (name : String) (t ci : Nat) (kw : K)
    (hpos : 0 < ci) :
    (b.run_algorithm cls name t ci kw).2.2
        = Event.construct ::
          ((List.range (t / ci)).map (fun j =>
            [Event.advance ci, Event.bestResponse,
             Event.record ((j + 1) * ci)
               (((cls kw).best_response
                 (((cls kw).run ci)^[j + 1] (cls kw).init)).evs.sum)])).flatten
    ∧ (b.run_algorithm cls name t ci kw).2.2.count Event.construct = 1
    ∧ (b.run_algorithm cls name t ci kw).2.2.head? = some Event.construct := by
  have hev : (b.run_algorithm cls name t ci kw).2.2
      = Event.construct ::
        ((List.range (t / ci)).map (fun j =>
          [Event.advance ci, Event.bestResponse,
           Event.record ((j + 1) * ci)
             (((cls kw).best_response
               (((cls kw).run ci)^[j + 1] (cls kw).init)).evs.sum)])).flatten := by
    rw [run_algorithm_events, run_algorithm_core, checkpoint_loop_events]
    congr 1
    congr 1
    refine List.map_congr_left (fun a _ => ?_)
    have : 0 + 1 + a = a + 1 := by omega
    rw [this]
  refine ⟨hev, ?_, by rw [hev]; rfl⟩
  rw [hev]
  have hnot : Event.construct ∉
      ((List.range (t / ci)).map (fun j =>
        [Event.advance ci, Event.bestResponse,
         Event.record ((j + 1) * ci)
           (((cls kw).best_response
             (((cls kw).run ci)^[j + 1] (cls kw).init)).evs.sum)])).flatten := by
    simp [List.mem_flatten]
  rw [List.count_cons_self, List.count_eq_zero.mpr hnot]

/-- C4 witness: the trace theorem applied at a concrete run. -/
theorem C4_construct_once_then_blocks_witness :
    (demoBench.run_algorithm demoClass "A" 4 2 0).2.2
        = Event.construct ::
          ((List.range (4 / 2)).map (fun j =>
            [Event.advance 2, Event.bestResponse,
             Event.record ((j + 1) * 2)
               ((demoSolver.best_response
                 ((demoSolver.run 2)^[j + 1] demoSolver.init)).evs.sum)])).flatten
    ∧ (demoBench.run_algorithm demoClass "A" 4 2 0).2.2.count Event.construct = 1
    ∧ (demoBench.run_algorithm demoClass "A" 4 2 0).2.2.head?
        = some Event.construct :=
  C4_construct_once_then_blocks demoBench demoClass "A" 4 2 0 (by decide)

/-- C5: a config tuple of unsupported arity makes `compare_algorithms`
raise the configuration error with no action for that entry or later ones:
the final session and the whole event trace are exactly those of the
well-formed prefix (so no solver for the malformed entry is ever
constructed or run), and every previously completed entry stays intact. -/
theorem C5_malformed_config_aborts {S K : Type} (eK : K) (t ci : Nat)
    (cs1 : List (AlgorithmConfig S K)) (a : Nat)
    (cs2 : List (AlgorithmConfig S K)) (b : CFRBenchmark S)
    (hwf : ∀ c ∈ cs1, c.wellFormed) :
    compare_algorithms eK t ci b (cs1 ++ AlgorithmConfig.other a :: cs2)
      = ((compare_algorithms eK t ci b cs1).1,
         (compare_algorithms eK t ci b cs1).2.1,
         some "Invalid config format") :=
  compare_algorithms_stops eK t ci cs1 b a cs2 hwf

/-- C5 witness: a batch `[(class, "x"), (class, name, kwargs, extra), ...]`
whose second entry has arity 4. -/
theorem C5_malformed_config_aborts_witness :
    compare_algorithms 0 4 2 demoBench
        ([AlgorithmConfig.pair demoClass "x"]
          ++ AlgorithmConfig.other 4 :: [AlgorithmConfig.pair demoClass2 "y"])
      = ((compare_algorithms 0 4 2 demoBench
            [AlgorithmConfig.pair demoClass "x"]).1,
         (compare_algorithms 0 4 2 demoBench
            [AlgorithmConfig.pair demoClass "x"]).2.1,
         some "Invalid config format") :=
  C5_malformed_config_aborts 0 4 2 [AlgorithmConfig.pair demoClass "x"] 4
    [AlgorithmConfig.pair demoClass2 "y"] demoBench
    (fun c hc => by rcases List.mem_singleton.mp hc with rfl; trivial)

/-- C6: running twice under the same name overwrites: after the second
call the store maps the name to exactly the run returned by the second
call, which is the data of the latest run. -/
theorem C6_last_write_wins {S K : Type} (b : CFRBenchmark S)
    (cls1 cls2 : K → Solver S) (name : String) (t1 ci1 t2 ci2 : Nat)
    (kw1 kw2 : K) (h1 : 0 < ci1) (h2 : 0 < ci2) :
    dictLookup name
        (((b.run_algorithm cls1 name t1 ci1 kw1).1.run_algorithm
            cls2 name t2 ci2 kw2).1.results)
      = some (((b.run_algorithm cls1 name t1 ci1 kw1).1.run_algorithm
            cls2 name t2 ci2 kw2).2.1)
    ∧ ((b.run_algorithm cls1 name t1 ci1 kw1).1.run_algorithm
          cls2 name t2 ci2 kw2).2.1
        = run_algorithm_data (cls2 kw2) t2 ci2 := by
  constructor
  · rw [run_algorithm_results, run_algorithm_run]
    exact dictLookup_dictInsert_self _ _ _
  · rw [run_algorithm_run]

/-- C6 witness: two concrete runs under the name "A" with different
solvers and schedules. -/
theorem C6_last_write_wins_witness :
    dictLookup "A"
        (((demoBench.run_algorithm demoClass "A" 4 2 0).1.run_algorithm
            demoClass2 "A" 6 3 1).1.results)
      = some (((demoBench.run_algorithm demoClass "A" 4 2 0).1.run_algorithm
            demoClass2 "A" 6 3 1).2.1)
    ∧ ((demoBench.run_algorithm demoClass "A" 4 2 0).1.run_algorithm
          demoClass2 "A" 6 3 1).2.1
        = run_algorithm_data (demoClass2 1) 6 3 :=
  C6_last_write_wins demoBench demoClass demoClass2 "A" 4 2 6 3 0 1
    (by decide) (by decide)

/-- C8: when every stored run has at least one checkpoint, `print_summary`
emits, for each run in insertion order, its name with the iteration count
and metric value of its last recorded checkpoint, and no error; the
embedding of `print_summary` is a pure function of the store, which it
does not modify. -/
theorem C8_print_summary_rows {S : Type} (b : CFRBenchmark S)
    (h : ∀ p ∈ b.results, p.2.iterations ≠ [] ∧ p.2.exploitability ≠ []) :
    b.print_summary
      = (b.results.map (fun p =>
          (p.1, p.2.iterations.getLastD 0, p.2.exploitability.getLastD 0)),
         none) :=
  summary_loop_of_forall_ne_nil b.results h

/-- C8 witness: the summary of a store holding one completed concrete
run. -/
theorem C8_print_summary_rows_witness :
    (demoBench.run_algorithm demoClass "A" 4 2 0).1.print_summary
      = ((demoBench.run_algorithm demoClass "A" 4 2 0).1.results.map (fun p =>
          (p.1, p.2.iterations.getLastD 0, p.2.exploitability.getLastD 0)),
         none) :=
  C8_print_summary_rows (demoBench.run_algorithm demoClass "A" 4 2 0).1
    (by decide)

/-- C9: a stored run with an empty checkpoint sequence (as produced when
`checkpoint_interval > total_iterations`) makes `print_summary` fail with
the indexing error: the `[-1]` access on the empty iterations list is
unguarded. -/
theorem C9_empty_run_summary_error {S : Type} (b : CFRBenchmark S)
    (h : ∃ p ∈ b.results, p.2.iterations = []) :
    b.print_summary.2 = some "IndexError: list index out of range" :=
  summary_loop_err_of_empty b.results h

/-- C9 witness: the summary error after a concrete degenerate run
(`checkpoint_interval = 5 > 3 = total_iterations`). -/
theorem C9_empty_run_summary_error_witness :
    (demoBench.run_algorithm demoClass "A" 3 5 0).1.print_summary.2
      = some "IndexError: list index out of range" :=
  C9_empty_run_summary_error (demoBench.run_algorithm demoClass "A" 3 5 0).1
    (by decide)

/-- C10: every run produced by the runner has iteration and metric lists
of equal length `total_iterations / checkpoint_interval`, and both
mutating operations of the harness (`run_algorithm` and
`compare_algorithms`) preserve the equal-length invariant of the store
(the reporting layer reads the store without modifying it). -/
theorem C10_parallel_lists {S K : Type} (cfr : Solver S) (t ci : Nat) :
    ((run_algorithm_data cfr t ci).iterations.length = t / ci
      ∧ (run_algorithm_data cfr t ci).exploitability.length = t / ci)
    ∧ (∀ (b : CFRBenchmark S) (cls : K → Solver S) (name : String) (kw : K),
        (∀ p ∈ b.results, p.2.iterations.length = p.2.exploitability.length) →
        ∀ p ∈ (b.run_algorithm cls name t ci kw).1.results,
          p.2.iterations.length = p.2.exploitability.length)
    ∧ (∀ (eK : K) (b : CFRBenchmark S) (cs : List (AlgorithmConfig S K)),
        (∀ p ∈ b.results, p.2.iterations.length = p.2.exploitability.length) →
        ∀ p ∈ (compare_algorithms eK t ci b cs).1.results,
          p.2.iterations.length = p.2.exploitability.length) := by
  have hlen : ∀ cfr2 : Solver S,
      (run_algorithm_data cfr2 t ci).iterations.length = t / ci
        ∧ (run_algorithm_data cfr2 t ci).exploitability.length = t / ci := by
    intro cfr2
    constructor <;>
      simp [run_algorithm_data_iterations, run_algorithm_data_exploitability]
  refine ⟨hlen cfr, ?_, ?_⟩
  · intro b cls name kw hb
    rw [run_algorithm_results]
    exact forall_mem_dictInsert
      (P := fun r : AlgorithmRun S =>
        r.iterations.length = r.exploitability.length) hb
      ((hlen (cls kw)).1.trans (hlen (cls kw)).2.symm)
  · intro eK b cs hb
    exact compare_algorithms_preserves
      (fun r => r.iterations.length = r.exploitability.length) eK t ci
      (fun cfr2 => (hlen cfr2).1.trans (hlen cfr2).2.symm) cs b hb

/-- C10 witness: equal lengths for a concrete run, directly and through a
store built by `run_algorithm`. -/
theorem C10_parallel_lists_witness :
    ((run_algorithm_data demoSolver 7 2).iterations.length = 7 / 2
      ∧ (run_algorithm_data demoSolver 7 2).exploitability.length = 7 / 2)
    ∧ ("A", run_algorithm_data demoSolver 7 2).2.iterations.length
        = ("A", run_algorithm_data demoSolver 7 2).2.exploitability.length :=
  ⟨(C10_parallel_lists (K := Nat) demoSolver 7 2).1,
   (C10_parallel_lists (K := Nat) demoSolver 7 2).2.1 demoBench demoClass "A" 0
     (by simp [demoBench])
     ("A", run_algorithm_data demoSolver 7 2)
     (mem_dictInsert_self "A" (run_algorithm_data demoSolver 7 2) [])⟩

/-- C7: a batch of well-formed configs with pairwise-distinct names run by
`compare_algorithms` on a fresh session yields a Result Store whose
iteration order — and hence the plot legend order and the summary row
order — is exactly the input order of the configs. -/
theorem C7_input_order_preserved {S K : Type} (eK : K) (t ci : Nat)
    (cs : List (AlgorithmConfig S K)) (b : CFRBenchmark S)
    (hb : b.results = []) (hwf : ∀ c ∈ cs, c.wellFormed)
    (hnd : (configNames cs).Nodup) (hpos : 0 < ci) (hle : ci ≤ t) :
    (compare_algorithms eK t ci b cs).1.results.map Prod.fst = configNames cs
    ∧ (compare_algorithms eK t ci b cs).1.plot_convergence.map Prod.fst
        = configNames cs
    ∧ (compare_algorithms eK t ci b cs).1.print_summary.1.map Prod.fst
        = configNames cs := by
  have hkeys := compare_algorithms_keys eK t ci cs b hwf hnd
    (by rw [hb]; simp)
  have hkeq : (compare_algorithms eK t ci b cs).1.results.map Prod.fst
      = configNames cs := by
    rw [hkeys.1, hb]; simp
  have hplot : (compare_algorithms eK t ci b cs).1.plot_convergence.map
      Prod.fst = (compare_algorithms eK t ci b cs).1.results.map Prod.fst := by
    rw [CFRBenchmark.plot_convergence, List.map_map]
    exact List.map_congr_left (fun p _ => rfl)
  have hdiv : 0 < t / ci := Nat.div_pos hle hpos
  have hne : ∀ p ∈ (compare_algorithms eK t ci b cs).1.results,
      p.2.iterations ≠ [] ∧ p.2.exploitability ≠ [] := by
    refine compare_algorithms_preserves
      (fun r : AlgorithmRun S => r.iterations ≠ [] ∧ r.exploitability ≠ [])
      eK t ci ?_ cs b (by rw [hb]; simp)
    intro cfr2
    have ha : (run_algorithm_data cfr2 t ci).iterations.length = t / ci := by
      simp [run_algorithm_data_iterations]
    have hb2 : (run_algorithm_data cfr2 t ci).exploitability.length
        = t / ci := by
      simp [run_algorithm_data_exploitability]
    exact ⟨List.length_pos.mp (by rw [ha]; exact hdiv),
           List.length_pos.mp (by rw [hb2]; exact hdiv)⟩
  refine ⟨hkeq, hplot.trans hkeq, ?_⟩
  show (summary_loop (compare_algorithms eK t ci b cs).1.results).1.map
      Prod.fst = configNames cs
  rw [summary_loop_of_forall_ne_nil _ hne]
  rw [List.map_map]
  exact (List.map_congr_left (fun p _ => rfl)).trans hkeq

/-- C7 witness: the ordering theorem applied to a concrete two-entry batch
`[(class, "x"), (class2, "y", kwargs)]`. -/
theorem C7_input_order_preserved_witness :
    (compare_algorithms 0 4 2 demoBench
        [AlgorithmConfig.pair demoClass "x",
         AlgorithmConfig.triple demoClass2 "y" 1]).1.results.map Prod.fst
      = configNames [AlgorithmConfig.pair demoClass "x",
          AlgorithmConfig.triple demoClass2 "y" 1]
    ∧ (compare_algorithms 0 4 2 demoBench
        [AlgorithmConfig.pair demoClass "x",
         AlgorithmConfig.triple demoClass2 "y" 1]).1.plot_convergence.map
          Prod.fst
      = configNames [AlgorithmConfig.pair demoClass "x",
          AlgorithmConfig.triple demoClass2 "y" 1]
    ∧ (compare_algorithms 0 4 2 demoBench
        [AlgorithmConfig.pair demoClass "x",
         AlgorithmConfig.triple demoClass2 "y" 1]).1.print_summary.1.map
          Prod.fst
      = configNames [AlgorithmConfig.pair demoClass "x",
          AlgorithmConfig.triple demoClass2 "y" 1] :=
  C7_input_order_preserved 0 4 2
    [AlgorithmConfig.pair demoClass "x",
     AlgorithmConfig.triple demoClass2 "y" 1] demoBench rfl
    (by
      intro c hc
      rcases List.mem_cons.mp hc with rfl | hc2
      · trivial
      · rcases List.mem_singleton.mp hc2 with rfl; trivial)
    (by decide) (by decide) (by decide)

/-- C2 counterexample: with `checkpoint_interval = 5 > 3 =
total_iterations` the run records zero checkpoints, yet an entry for the
algorithm still appears in the plot: `plot_convergence` issues a plot call
labelled with its name (with empty curve data), so the claim that no entry
for that algorithm appears in the summary or the plot is false as stated. -/
theorem C2_counterexample :
    (demoBench.run_algorithm demoClass "A" 3 5 0).2.1.iterations = []
    ∧ (demoBench.run_algorithm demoClass "A" 3 5 0).1.plot_convergence.map
        Prod.fst = ["A"] := by
  decide

/-- C2 amended: a `run_algorithm` call with
`checkpoint_interval > total_iterations` produces zero checkpoints (both
recorded sequences are empty), but the run is nevertheless stored in the
Result Store under its name; `print_summary` then fails with the indexing
error upon reaching it, so no summary row for that algorithm is ever
emitted, while `plot_convergence` still issues a plot call labelled with
its name (with empty curve data). -/
theorem C2_degenerate_schedule {S K : Type} (b : CFRBenchmark S)
    (cls : K → Solver S) (name : String) (t ci : Nat) (kw : K)
    (hlt : t < ci) (hnd : (b.results.map Prod.fst).Nodup) :
    (b.run_algorithm cls name t ci kw).2.1.iterations = []
    ∧ (b.run_algorithm cls name t ci kw).2.1.exploitability = []
    ∧ dictLookup name (b.run_algorithm cls name t ci kw).1.results
        = some (run_algorithm_data (cls kw) t ci)
    ∧ name ∉ ((b.run_algorithm cls name t ci kw).1.print_summary).1.map
        Prod.fst
    ∧ ((b.run_algorithm cls name t ci kw).1.print_summary).2
        = some "IndexError: list index out of range"
    ∧ name ∈ ((b.run_algorithm cls name t ci kw).1.plot_convergence).map
        Prod.fst := by
  have hdiv : t / ci = 0 := Nat.div_eq_of_lt hlt
  have hit : (run_algorithm_data (cls kw) t ci).iterations = [] := by
    rw [run_algorithm_data_iterations, hdiv]; simp
  have hex : (run_algorithm_data (cls kw) t ci).exploitability = [] := by
    rw [run_algorithm_data_exploitability, hdiv]; simp
  have hmem : (name, run_algorithm_data (cls kw) t ci)
      ∈ (b.run_algorithm cls name t ci kw).1.results := by
    rw [run_algorithm_results]
    exact mem_dictInsert_self _ _ _
  refine ⟨by rw [run_algorithm_run]; exact hit,
          by rw [run_algorithm_run]; exact hex, ?_, ?_, ?_, ?_⟩
  · rw [run_algorithm_results]
    exact dictLookup_dictInsert_self _ _ _
  · intro hrow
    obtain ⟨d, hd, hdne⟩ := summary_loop_names_sub _ _ hrow
    rw [run_algorithm_results] at hd
    have : d = run_algorithm_data (cls kw) t ci :=
      eq_of_mem_dictInsert_self hnd hd
    exact hdne (this ▸ hit)
  · exact summary_loop_err_of_empty _
      ⟨(name, run_algorithm_data (cls kw) t ci), hmem, hit⟩
  · have : ((b.run_algorithm cls name t ci kw).1.plot_convergence).map
        Prod.fst
        = (b.run_algorithm cls name t ci kw).1.results.map Prod.fst := by
      rw [CFRBenchmark.plot_convergence, List.map_map]
      exact List.map_congr_left (fun p _ => rfl)
    rw [this]
    exact List.mem_map_of_mem Prod.fst hmem

/-- C2 amended witness: the degenerate-schedule theorem applied at a
concrete run with `total_iterations = 3`, `checkpoint_interval = 5`. -/
theorem C2_degenerate_schedule_witness :
    (demoBench.run_algorithm demoClass "A" 3 5 0).2.1.iterations = []
    ∧ (demoBench.run_algorithm demoClass "A" 3 5 0).2.1.exploitability = []
    ∧ dictLookup "A" (demoBench.run_algorithm demoClass "A" 3 5 0).1.results
        = some (run_algorithm_data (demoClass 0) 3 5)
    ∧ "A" ∉ ((demoBench.run_algorithm demoClass "A" 3 5 0).1.print_summary).1.map
        Prod.fst
    ∧ ((demoBench.run_algorithm demoClass "A" 3 5 0).1.print_summary).2
        = some "IndexError: list index out of range"
    ∧ "A" ∈ ((demoBench.run_algorithm demoClass "A" 3 5 0).1.plot_convergence).map
        Prod.fst :=
  C2_degenerate_schedule demoBench demoClass "A" 3 5 0 (by decide) (by decide)
